import Mathlib

/-!
A shallow embedding of the work-coordination engine of
`multi-agent-coordination-mcp`.  The repository ships several near-identical
server variants; each is embedded in its own namespace:

* `Main`  — `src/main.py` (the FastMCP server backed by SQLite),
* `Http`  — `src/http_server.py`,
* `Fixed` — `src/mcp_server_fixed.py`,
* `Server` — `src/server.py` (the class-based variant with a `files` table).

The SQLite database is modelled as explicit lists of rows.  Free-text columns
(descriptions), timestamps and the audit-event table are omitted: no claim
under study mentions them and they never feed back into control flow.
Auto-increment row ids (`lastrowid`) are modelled as explicit parameters of
the creation operations.
-/

/-- TodoItem/Task/Project status column.  The Python code stores the four
string literals `pending`, `in_progress`, `completed`, `cancelled`. -/
inductive Status where
  | pending
  | inProgress
  | completed
  | cancelled
deriving Repr, DecidableEq

/-- Parse a status string exactly as `update_todo_status` validates it
against `valid_statuses = ["pending", "in_progress", "completed",
"cancelled"]`. -/
def parseStatus (s : String) : Option Status :=
  if s = "pending" then some .pending
  else if s = "in_progress" then some .inProgress
  else if s = "completed" then some .completed
  else if s = "cancelled" then some .cancelled
  else none

/-- A row of the `todo_items` table (id, task_id, order_index, status,
assigned_agent). -/
structure TodoItem where
  id : Nat
  taskId : Nat
  orderIndex : Int
  status : Status
  assignedAgent : Option String
deriving Repr, DecidableEq

/-- A row of the `tasks` table (the source calls the entity `Task`, which
collides with a core Lean type). -/
structure TaskRow where
  id : Nat
  projectId : Nat
  orderIndex : Int
  status : Status
deriving Repr, DecidableEq

/-- A row of the `projects` table. -/
structure Project where
  id : Nat
  name : String
  status : Status
deriving Repr, DecidableEq

/-- The SQLite database of `src/main.py` (and of `http_server.py` /
`mcp_server_fixed.py`, which use the same schema): `projects`, `tasks`,
`todo_items`, the association tables `task_dependencies`,
`todo_dependencies`, `todo_files`, and the `file_locks` table keyed by
file path.  `fileLocks` pairs are `(file_path, locked_by)`. -/
structure DB where
  projects : List Project
  tasks : List TaskRow
  todos : List TodoItem
  taskDeps : List (Nat × Nat)
  todoDeps : List (Nat × Nat)
  todoFiles : List (Nat × String)
  fileLocks : List (String × String)
deriving Repr, DecidableEq

/-- `SELECT * FROM projects WHERE name = ?` (first row). -/
def findProject (db : DB) (name : String) : Option Project :=
  db.projects.find? (fun p => decide (p.name = name))

/-- `SELECT * FROM todo_items WHERE id = ?` (first row). -/
def findTodo (db : DB) (todoId : Nat) : Option TodoItem :=
  db.todos.find? (fun t => decide (t.id = todoId))

/-- `SELECT * FROM tasks WHERE id = ?` (first row). -/
def findTask (db : DB) (taskId : Nat) : Option TaskRow :=
  db.tasks.find? (fun t => decide (t.id = taskId))

/-- The owner of the lock record for `path`, if one exists
(`SELECT locked_by FROM file_locks WHERE file_path = ?`). -/
def lockOf (db : DB) (path : String) : Option String :=
  (db.fileLocks.find? (fun fl => decide (fl.1 = path))).map (·.2)

/-- The file paths associated with a todo item
(`SELECT file_path FROM todo_files WHERE todo_id = ?`). -/
def filesOf (db : DB) (todoId : Nat) : List String :=
  (db.todoFiles.filter (fun tf => decide (tf.1 = todoId))).map (·.2)

/-- `INSERT OR REPLACE INTO file_locks (file_path, locked_by) VALUES (?, ?)`:
the path is the primary key, so an existing record for the same path is
replaced, otherwise a new record is appended. -/
def insertOrReplaceLock (locks : List (String × String)) (path agentId : String) :
    List (String × String) :=
  if locks.any (fun fl => decide (fl.1 = path)) then
    locks.map (fun fl => if fl.1 = path then (path, agentId) else fl)
  else
    locks ++ [(path, agentId)]

/-- Python truthiness of the nullable `assigned_agent` column: SQL `NULL`
reads back as `None` and the empty string is also falsy, so the ownership
guard `if row["assigned_agent"] ...` treats both as unset. -/
def agentTruthy : Option String → Bool
  | none => false
  | some s => decide (s ≠ "")

namespace Main

/-- The todo-dependency subquery of `get_next_todo_item` in `src/main.py`:
`EXISTS (SELECT 1 FROM todo_dependencies td JOIN todo_items dep ON
td.depends_on_todo_id = dep.id WHERE td.todo_id = t.id AND
dep.status != 'completed')`.  A dependency edge pointing at a nonexistent
todo row is dropped by the join. -/
def hasIncompleteDep (db : DB) (todoId : Nat) : Bool :=
  db.todoDeps.any fun d =>
    decide (d.1 = todoId) &&
      db.todos.any fun dep => decide (dep.id = d.2) && decide (dep.status ≠ .completed)

/-- The file-lock subquery of `get_next_todo_item` in `src/main.py`:
`EXISTS (SELECT 1 FROM todo_files tf JOIN file_locks fl ON tf.file_path =
fl.file_path WHERE tf.todo_id = t.id AND fl.locked_by != ?)` — only a lock
held by an agent other than the requester blocks. -/
def hasBlockingLock (db : DB) (todoId : Nat) (agentId : String) : Bool :=
  db.todoFiles.any fun tf =>
    decide (tf.1 = todoId) &&
      db.fileLocks.any fun fl => decide (fl.1 = tf.2) && decide (fl.2 ≠ agentId)

/-- The `WHERE` clause of the candidate query of `get_next_todo_item` in
`src/main.py`: the item belongs (via its task) to the project, is
`pending` with `assigned_agent IS NULL`, has no incomplete todo
dependency, and none of its files is locked by another agent. -/
def eligible (db : DB) (projectId : Nat) (agentId : String) (t : TodoItem) : Bool :=
  (db.tasks.any fun task => decide (task.id = t.taskId) && decide (task.projectId = projectId)) &&
    decide (t.status = .pending) &&
    decide (t.assignedAgent = none) &&
    !hasIncompleteDep db t.id &&
    !hasBlockingLock db t.id agentId

/-- The `ORDER BY task.order_index, t.order_index` sort key of the
candidate query (the task row exists whenever the join condition of
`eligible` held). -/
def claimKey (db : DB) (t : TodoItem) : Int × Int :=
  (((db.tasks.find? (fun task => decide (task.id = t.taskId))).map (·.orderIndex)).getD 0,
    t.orderIndex)

end Main

/-- Strict lexicographic comparison on the `(task.order_index,
todo.order_index)` sort key. -/
def keyLt (a b : Int × Int) : Bool :=
  decide (a.1 < b.1) || (decide (a.1 = b.1) && decide (a.2 < b.2))

/-- `LIMIT 1` after the `ORDER BY`: the element with the least sort key
(ties broken by row order, as SQLite may). -/
def selectFirst (key : TodoItem → Int × Int) : List TodoItem → Option TodoItem
  | [] => none
  | t :: ts => some (ts.foldl (fun best x => if keyLt (key x) (key best) then x else best) t)

/-- Result of a `get_next_todo_item` call: the error dict for an unknown
project, the "no available todo items" message, or the returned row. -/
inductive ClaimResult where
  | projectNotFound
  | noneAvailable
  | item (t : TodoItem)
deriving Repr, DecidableEq

namespace Main

/-- `get_next_todo_item` of `src/main.py`: looks up the project, runs the
candidate query, and returns the first row — performing **no** update
(the returned message tells the agent to call `update_todo_status` to
claim the item).  The returned `DB` is the (unchanged) database after
the call. -/
def get_next_todo_item (db : DB) (projectName agentId : String) : DB × ClaimResult :=
  match findProject db projectName with
  | none => (db, .projectNotFound)
  | some p =>
    match selectFirst (claimKey db) (db.todos.filter (eligible db p.id agentId)) with
    | none => (db, .noneAvailable)
    | some t => (db, .item t)

end Main

/-- Result of an `update_todo_status` call across the variants: the
invalid-status error, the missing-todo error, the "assigned to different
agent" error, or success (reporting the stored status and the stored
`assigned_agent`, as the returned dict does). -/
inductive UpdateResult where
  | invalidStatus
  | notFound
  | ownershipConflict
  | updated (st : Status) (assigned : Option String)
deriving Repr, DecidableEq

/-- `UPDATE todo_items SET status = ?, assigned_agent = ? WHERE id = ?`. -/
def setTodoStatus (todos : List TodoItem) (todoId : Nat) (st : Status)
    (assigned : Option String) : List TodoItem :=
  todos.map fun t =>
    if t.id = todoId then { t with status := st, assignedAgent := assigned } else t

namespace Main

/-- `update_todo_status` of `src/main.py`: validates the status string,
looks up the todo, applies the ownership guard
`if row["assigned_agent"] and row["assigned_agent"] != agent_id and
status not in ["pending"]`, stores the new status together with the new
`assigned_agent` (`agent_id` for `in_progress`, `NULL` otherwise), then —
on the `in_progress` branch — `INSERT OR REPLACE`s a lock for every
associated file, and on the `completed`/`cancelled` branch deletes the
lock rows of those files whose `locked_by` equals the requesting agent. -/
def update_todo_status (db : DB) (todoId : Nat) (status agentId : String) :
    DB × UpdateResult :=
  match parseStatus status with
  | none => (db, .invalidStatus)
  | some st =>
    match findTodo db todoId with
    | none => (db, .notFound)
    | some row =>
      if agentTruthy row.assignedAgent && decide (row.assignedAgent ≠ some agentId) &&
          decide (st ≠ .pending) then
        (db, .ownershipConflict)
      else
        let assigned : Option String := if st = .inProgress then some agentId else none
        let todos := setTodoStatus db.todos todoId st assigned
        let itemFiles := filesOf db todoId
        let locks :=
          if st = .inProgress then
            itemFiles.foldl (fun fls p => insertOrReplaceLock fls p agentId) db.fileLocks
          else if st = .completed ∨ st = .cancelled then
            db.fileLocks.filter fun fl =>
              !(itemFiles.contains fl.1 && decide (fl.2 = agentId))
          else
            db.fileLocks
        ({ db with todos := todos, fileLocks := locks }, .updated st assigned)

/-- Result of `lock_files`: either the "already locked by another agent"
error (naming the conflicting paths) or success. -/
inductive LockResult where
  | conflict (paths : List String)
  | locked
deriving Repr, DecidableEq

/-- The per-path conflict test of `lock_files`:
`SELECT locked_by FROM file_locks WHERE file_path = ? AND locked_by != ?`
returned a row. -/
def lockedByOther (db : DB) (p agentId : String) : Bool :=
  db.fileLocks.any fun fl => decide (fl.1 = p) && decide (fl.2 ≠ agentId)

/-- `lock_files` of `src/main.py`: first collects every requested path
that has a lock record with `locked_by != agent_id`; if any exist it
returns the error without touching the table, otherwise it
`INSERT OR REPLACE`s a lock row for every requested path. -/
def lock_files (db : DB) (files : List String) (agentId : String) :
    DB × LockResult :=
  let lockedByOthers := files.filter fun p => lockedByOther db p agentId
  if lockedByOthers ≠ [] then
    (db, .conflict lockedByOthers)
  else
    ({ db with
        fileLocks := files.foldl (fun fls p => insertOrReplaceLock fls p agentId) db.fileLocks },
      .locked)

/-- Result of `unlock_files`: the paths that were released and the paths
rejected because another agent holds them (the `error` key is added
exactly when `notOwned` is nonempty). -/
structure UnlockResult where
  unlocked : List String
  notOwned : List String
deriving Repr, DecidableEq

/-- One iteration of the `unlock_files` loop of `src/main.py`: a path with
no lock record is skipped silently; a record owned by the caller is
deleted and the path reported as unlocked; a record owned by someone else
is left alone and the path reported in `not_owned`. -/
def unlockStep (agentId : String)
    (acc : List (String × String) × List String × List String) (p : String) :
    List (String × String) × List String × List String :=
  match acc.1.find? (fun fl => decide (fl.1 = p)) with
  | none => acc
  | some fl =>
    if fl.2 = agentId then
      (acc.1.filter (fun fl => decide (fl.1 ≠ p)), acc.2.1 ++ [p], acc.2.2)
    else
      (acc.1, acc.2.1, acc.2.2 ++ [p])

/-- `unlock_files` of `src/main.py`: iterates `unlockStep` over the
requested paths. -/
def unlock_files (db : DB) (files : List String) (agentId : String) :
    DB × UnlockResult :=
  let r := files.foldl (unlockStep agentId) (db.fileLocks, [], [])
  ({ db with fileLocks := r.1 }, ⟨r.2.1, r.2.2⟩)

end Main

namespace Http

/-- `get_next_todo_item` of `src/http_server.py`: the candidate query is
the same as in `src/main.py` (same `WHERE` clause, ordering and `LIMIT 1`),
but on success the row is claimed in the same call:
`UPDATE todo_items SET assigned_agent = ?, status = 'in_progress'
WHERE id = ?` (no file locks are taken here). -/
def get_next_todo_item (db : DB) (projectName agentId : String) : DB × ClaimResult :=
  match findProject db projectName with
  | none => (db, .projectNotFound)
  | some p =>
    match selectFirst (Main.claimKey db) (db.todos.filter (Main.eligible db p.id agentId)) with
    | none => (db, .noneAvailable)
    | some t =>
      ({ db with todos := setTodoStatus db.todos t.id .inProgress (some agentId) }, .item t)

/-- `update_todo_status` of `src/http_server.py`: the ownership guard is
`if row["assigned_agent"] and row["assigned_agent"] != agent_id` — with
**no** exception for a transition to `pending` — and the update stores
`agent_id` for `in_progress` and `NULL` for every other status
(`update_fields.get("assigned_agent")` defaults to `None`).  No file-lock
handling exists in this variant. -/
def update_todo_status (db : DB) (todoId : Nat) (status agentId : String) :
    DB × UpdateResult :=
  match parseStatus status with
  | none => (db, .invalidStatus)
  | some st =>
    match findTodo db todoId with
    | none => (db, .notFound)
    | some row =>
      if agentTruthy row.assignedAgent && decide (row.assignedAgent ≠ some agentId) then
        (db, .ownershipConflict)
      else
        let assigned : Option String := if st = .inProgress then some agentId else none
        ({ db with todos := setTodoStatus db.todos todoId st assigned }, .updated st assigned)

end Http

namespace Fixed

/-- The `WHERE` clause of the candidate query of `get_next_todo_item` in
`src/mcp_server_fixed.py`: as in `src/main.py` but **without** the
file-lock subquery (this variant never consults `file_locks` when
selecting work). -/
def eligible (db : DB) (projectId : Nat) (t : TodoItem) : Bool :=
  (db.tasks.any fun task => decide (task.id = t.taskId) && decide (task.projectId = projectId)) &&
    decide (t.status = .pending) &&
    decide (t.assignedAgent = none) &&
    !Main.hasIncompleteDep db t.id

/-- `get_next_todo_item` of `src/mcp_server_fixed.py`: selects the first
candidate (lock-blind query), then claims it in the same call with
`UPDATE todo_items SET assigned_agent = ?, status = 'in_progress'
WHERE id = ?`. -/
def get_next_todo_item (db : DB) (projectName agentId : String) : DB × ClaimResult :=
  match findProject db projectName with
  | none => (db, .projectNotFound)
  | some p =>
    match selectFirst (Main.claimKey db) (db.todos.filter (eligible db p.id)) with
    | none => (db, .noneAvailable)
    | some t =>
      ({ db with todos := setTodoStatus db.todos t.id .inProgress (some agentId) }, .item t)

/-- `update_todo_status` of `src/mcp_server_fixed.py`: identical guard to
the http variant (`if row["assigned_agent"] and row["assigned_agent"] !=
agent_id`, no `pending` exception); `assigned_agent` becomes `agent_id`
for `in_progress` and `None` otherwise; no lock handling. -/
def update_todo_status (db : DB) (todoId : Nat) (status agentId : String) :
    DB × UpdateResult :=
  match parseStatus status with
  | none => (db, .invalidStatus)
  | some st =>
    match findTodo db todoId with
    | none => (db, .notFound)
    | some row =>
      if agentTruthy row.assignedAgent && decide (row.assignedAgent ≠ some agentId) then
        (db, .ownershipConflict)
      else
        let assigned : Option String := if st = .inProgress then some agentId else none
        ({ db with todos := setTodoStatus db.todos todoId st assigned }, .updated st assigned)

end Fixed

namespace Main

/-- `create_project` of `src/main.py`: inserts a project with status
`pending`; a duplicate name raises `sqlite3.IntegrityError` (the `UNIQUE`
column) and returns the error without inserting.  `newId` models
`lastrowid`. -/
def create_project (db : DB) (newId : Nat) (name : String) : DB × Bool :=
  if db.projects.any (fun p => decide (p.name = name)) then
    (db, false)
  else
    ({ db with projects := db.projects ++ [⟨newId, name, .pending⟩] }, true)

/-- `create_task` of `src/main.py`: requires the project to exist, inserts
a task with the given order index and status `pending`, and inserts one
`task_dependencies` row per listed dependency. -/
def create_task (db : DB) (projectName : String) (newId : Nat) (order : Int)
    (dependencies : List Nat) : DB × Bool :=
  match findProject db projectName with
  | none => (db, false)
  | some p =>
    ({ db with
        tasks := db.tasks ++ [⟨newId, p.id, order, .pending⟩],
        taskDeps := db.taskDeps ++ dependencies.map (fun d => (newId, d)) }, true)

/-- `create_todo_item` of `src/main.py`: requires the task to exist,
inserts a todo with status `pending` and `assigned_agent` `NULL`, plus
one `todo_dependencies` row per dependency and one `todo_files` row per
file path. -/
def create_todo_item (db : DB) (taskId newId : Nat) (order : Int)
    (dependencies : List Nat) (files : List String) : DB × Bool :=
  match findTask db taskId with
  | none => (db, false)
  | some _ =>
    ({ db with
        todos := db.todos ++ [⟨newId, taskId, order, .pending, none⟩],
        todoDeps := db.todoDeps ++ dependencies.map (fun d => (newId, d)),
        todoFiles := db.todoFiles ++ files.map (fun f => (newId, f)) }, true)

/-- `insert_todo_item` of `src/main.py`: requires the task to exist; with
an `after_todo_id` it places the new item right after that sibling and
shifts every sibling with `order_index >= insertion point` up by one,
otherwise it inserts at index 0 and shifts every sibling.  (`after_todo_id`
is tested for Python truthiness; SQLite rowids start at 1, so `some 0` is
not modelled separately.)  The new row is `pending` and unassigned. -/
def insert_todo_item (db : DB) (taskId newId : Nat) (afterTodoId : Option Nat)
    (dependencies : List Nat) (files : List String) : DB × Bool :=
  match findTask db taskId with
  | none => (db, false)
  | some _ =>
    let go : Int → DB × Bool := fun k =>
      let shifted := db.todos.map fun t =>
        if t.taskId = taskId ∧ k ≤ t.orderIndex then
          { t with orderIndex := t.orderIndex + 1 }
        else t
      ({ db with
          todos := shifted ++ [⟨newId, taskId, k, .pending, none⟩],
          todoDeps := db.todoDeps ++ dependencies.map (fun d => (newId, d)),
          todoFiles := db.todoFiles ++ files.map (fun f => (newId, f)) }, true)
    match afterTodoId with
    | some a =>
      match db.todos.find? (fun t => decide (t.id = a) && decide (t.taskId = taskId)) with
      | none => (db, false)
      | some row => go (row.orderIndex + 1)
    | none => go 0

/-- The per-task aggregate row of `get_project_status` in `src/main.py`
(`COUNT(ti.id)` and the `completed` case count over the `LEFT JOIN`),
with its `completion_percentage`. -/
structure TaskStats where
  taskId : Nat
  totalTodos : Nat
  completedTodos : Nat
  completionPercentage : Rat
deriving Repr, DecidableEq

/-- The value returned by `get_project_status` in `src/main.py` for an
existing project (the free-text echo fields are omitted). -/
structure ProjectStatusResult where
  taskStats : List TaskStats
  totalTodos : Nat
  completedTodos : Nat
  completionPercentage : Rat
deriving Repr, DecidableEq

end Main

/-- Python's `round(x, 1)`, modelled over exact rationals (the source
computes with floats; the float rounding noise and Python's
round-half-to-even tie rule are abstracted away — no claim under study
depends on a tie). -/
def round1 (q : Rat) : Rat := (round (q * 10) : Int) / 10

/-- `round((completed / max(total, 1)) * 100, 1)` — the completion
percentage with its division-by-zero guard. -/
def completionPct (completed total : Nat) : Rat :=
  round1 ((completed : Rat) / (max total 1 : Nat) * 100)

namespace Main

/-- `get_project_status` of `src/main.py`: `None` models the
project-not-found error dict; otherwise per-task todo counts and the
overall counts, each with `completion_percentage` computed by
`completionPct`. -/
def get_project_status (db : DB) (name : String) : Option ProjectStatusResult :=
  match findProject db name with
  | none => none
  | some p =>
    let stats := (db.tasks.filter (fun t => decide (t.projectId = p.id))).map fun task =>
      let todos := db.todos.filter (fun ti => decide (ti.taskId = task.id))
      let completed := todos.filter (fun ti => decide (ti.status = .completed))
      TaskStats.mk task.id todos.length completed.length
        (completionPct completed.length todos.length)
    let allTodos := db.todos.filter fun ti =>
      db.tasks.any fun t => decide (t.id = ti.taskId) && decide (t.projectId = p.id)
    let completed := allTodos.filter (fun ti => decide (ti.status = .completed))
    some ⟨stats, allTodos.length, completed.length,
      completionPct completed.length allTodos.length⟩

end Main

namespace Server

/-- A row of the `tasks` table of `src/server.py`: this variant stores the
dependency list as a JSON column on the task itself. -/
structure STask where
  id : Nat
  projectId : Nat
  order : Int
  status : Status
  dependencies : List Nat
deriving Repr, DecidableEq

/-- A row of the `todo_items` table of `src/server.py` (dependencies as a
JSON column; this schema has no `assigned_agent` column). -/
structure STodo where
  id : Nat
  taskId : Nat
  order : Int
  status : Status
  dependencies : List Nat
deriving Repr, DecidableEq

/-- A row of the `files` table of `src/server.py`: a lock is a `locked`
flag plus `locked_by` on the file row.  `_lock_files` creates at most one
row per path, so the path identifies the row (the surrogate `file_id` of
the association table is elided). -/
structure SFile where
  path : String
  locked : Bool
  lockedBy : Option String
deriving Repr, DecidableEq

/-- The database of `src/server.py`. `todoItemFiles` holds the
`todo_item_files` association as `(todo_item_id, path)`. -/
structure SDB where
  projects : List Project
  tasks : List STask
  todos : List STodo
  files : List SFile
  todoItemFiles : List (Nat × String)
deriving Repr, DecidableEq

end Server

/-- Non-strict lexicographic comparison on an `(order, order)` sort key. -/
def keyLe (a b : Int × Int) : Bool :=
  decide (a.1 < b.1) || (decide (a.1 = b.1) && decide (a.2 ≤ b.2))

/-- Insert into a key-sorted list. -/
def insertByKey {α : Type} (key : α → Int × Int) (x : α) : List α → List α
  | [] => [x]
  | y :: ys => if keyLe (key x) (key y) then x :: y :: ys else y :: insertByKey key x ys

/-- Insertion sort by an `(Int × Int)` key — models a SQL
`ORDER BY k1, k2`. -/
def sortByKey {α : Type} (key : α → Int × Int) : List α → List α
  | [] => []
  | x :: xs => insertByKey key x (sortByKey key xs)

namespace Server

/-- The row list `_get_next_todo_item` iterates over: todos of the project
joined with their task, `ORDER BY t."order", ti."order"`. -/
def orderedTodos (db : SDB) (pid : Nat) : List (STodo × STask) :=
  sortByKey (fun p => (p.2.order, p.1.order))
    (db.todos.filterMap fun ti =>
      (db.tasks.find? (fun t => decide (t.id = ti.taskId) && decide (t.projectId = pid))).map
        (fun task => (ti, task)))

/-- Membership of a dependency id in `completed_ids` — the ids of the
`completed` todos **of this project** collected before the loop. -/
def completedInProject (db : SDB) (pid depId : Nat) : Bool :=
  db.todos.any fun x =>
    decide (x.id = depId) && decide (x.status = .completed) &&
      db.tasks.any fun t => decide (t.id = x.taskId) && decide (t.projectId = pid)

/-- The task-dependency check of `_get_next_todo_item`: the count of rows
`tasks WHERE id IN task_deps AND status != 'completed'` must be zero
(a dependency id with no task row contributes nothing). -/
def taskDepsOk (db : SDB) (deps : List Nat) : Bool :=
  !(db.tasks.any fun x => deps.contains x.id && decide (x.status ≠ .completed))

/-- The file-lock check of `_get_next_todo_item`: the associated files are
fetched and the item is skipped when `[f for f in files if f['locked']]`
is nonempty — **any** lock blocks, regardless of who holds it. -/
def hasLockedFile (db : SDB) (todoId : Nat) : Bool :=
  db.todoItemFiles.any fun tif =>
    decide (tif.1 = todoId) &&
      db.files.any fun f => decide (f.path = tif.2) && f.locked

/-- The whole skip-test of the `_get_next_todo_item` loop body in
`src/server.py` (note: the requesting agent plays no role in it). -/
def eligibleS (db : SDB) (pid : Nat) (p : STodo × STask) : Bool :=
  decide (p.1.status = .pending) &&
    taskDepsOk db p.2.dependencies &&
    (p.1.dependencies.all fun d => completedInProject db pid d) &&
    !hasLockedFile db p.1.id

/-- Result of `_get_next_todo_item` of `src/server.py`. -/
inductive SResult where
  | projectNotFound
  | noneAvailable
  | item (t : STodo)
deriving Repr, DecidableEq

/-- `_get_next_todo_item` of `src/server.py`: walks the ordered join and
returns the first row passing `eligibleS`; it performs no update.  The
`agent_id` parameter is accepted but never read by the eligibility loop. -/
def _get_next_todo_item (db : SDB) (projectName agentId : String) : SResult :=
  match db.projects.find? (fun p => decide (p.name = projectName)) with
  | none => .projectNotFound
  | some p =>
    match (orderedTodos db p.id).find? (eligibleS db p.id) with
    | none => .noneAvailable
    | some pr => .item pr.1

/-- For a returned item `t`: the task joined to it (the first `tasks` row
with its id inside the project of `projectName`) has all its listed task
dependencies completed. -/
def returnedTaskDepsOk (db : SDB) (projectName : String) (t : STodo) : Bool :=
  (db.projects.find? (fun p => decide (p.name = projectName))).all fun p =>
    (db.tasks.find? (fun task =>
        decide (task.id = t.taskId) && decide (task.projectId = p.id))).all
      fun task => taskDepsOk db task.dependencies

end Server

/-- Every row with the given todo id carries exactly the given status and
assigned agent (the post-state of an
`UPDATE todo_items SET status = ?, assigned_agent = ? WHERE id = ?`). -/
def allWithIdSet (todos : List TodoItem) (todoId : Nat) (st : Status)
    (assigned : Option String) : Bool :=
  todos.all fun x =>
    !(decide (x.id = todoId)) || (decide (x.status = st) && decide (x.assignedAgent = assigned))

/-- The status/agent coupling invariant of the spec: a todo is
`in_progress` exactly when its `assigned_agent` is non-null. -/
def statusAgentCoupled (db : DB) : Bool :=
  db.todos.all fun t => decide (t.status = .inProgress) == t.assignedAgent.isSome

namespace Main

/-- The lock condition of the eligibility predicate as the spec words it:
every file path associated with the todo item is either unlocked or
locked by the requesting agent itself. -/
def specLockCondition (db : DB) (todoId : Nat) (agentId : String) : Bool :=
  db.todoFiles.all fun tf =>
    !(decide (tf.1 = todoId)) ||
      db.fileLocks.all fun fl => !(decide (fl.1 = tf.2)) || decide (fl.2 = agentId)

end Main

/-- One engine operation, as a relation between the database before and
after the call.  The constructors enumerate every mutating operation of
`src/main.py` plus the claiming `get_next_todo_item` and the
`update_todo_status` of `src/http_server.py` and
`src/mcp_server_fixed.py` (the read-only tools — `get_project`,
`check_file_locks`, `get_project_status`, audit queries — never write). -/
inductive Step : DB → DB → Prop
  | createProject (db : DB) (newId : Nat) (name : String) :
      Step db (Main.create_project db newId name).1
  | createTask (db : DB) (projectName : String) (newId : Nat) (order : Int)
      (deps : List Nat) :
      Step db (Main.create_task db projectName newId order deps).1
  | createTodoItem (db : DB) (taskId newId : Nat) (order : Int) (deps : List Nat)
      (files : List String) :
      Step db (Main.create_todo_item db taskId newId order deps files).1
  | insertTodoItem (db : DB) (taskId newId : Nat) (afterTodoId : Option Nat)
      (deps : List Nat) (files : List String) :
      Step db (Main.insert_todo_item db taskId newId afterTodoId deps files).1
  | mainGetNext (db : DB) (projectName agentId : String) :
      Step db (Main.get_next_todo_item db projectName agentId).1
  | mainUpdateStatus (db : DB) (todoId : Nat) (status agentId : String) :
      Step db (Main.update_todo_status db todoId status agentId).1
  | httpGetNext (db : DB) (projectName agentId : String) :
      Step db (Http.get_next_todo_item db projectName agentId).1
  | httpUpdateStatus (db : DB) (todoId : Nat) (status agentId : String) :
      Step db (Http.update_todo_status db todoId status agentId).1
  | fixedGetNext (db : DB) (projectName agentId : String) :
      Step db (Fixed.get_next_todo_item db projectName agentId).1
  | fixedUpdateStatus (db : DB) (todoId : Nat) (status agentId : String) :
      Step db (Fixed.update_todo_status db todoId status agentId).1
  | lockFiles (db : DB) (files : List String) (agentId : String) :
      Step db (Main.lock_files db files agentId).1
  | unlockFiles (db : DB) (files : List String) (agentId : String) :
      Step db (Main.unlock_files db files agentId).1

/-- The empty database produced by a fresh store. -/
def DB.empty : DB := ⟨[], [], [], [], [], [], []⟩

/-- Databases reachable from the fresh store through engine operations. -/
inductive Reachable : DB → Prop
  | init : Reachable DB.empty
  | step {db db' : DB} : Reachable db → Step db db' → Reachable db'

/-- `lockOf` at the level of a raw `file_locks` row list
(`lockOf db p = lockOfL db.fileLocks p` by definition). -/
def lockOfL (locks : List (String × String)) (path : String) : Option String :=
  (locks.find? (fun fl => decide (fl.1 = path))).map (·.2)

/-- The `file_locks` rows surviving the `unlock_files` loop after the
paths `fs` have been processed: a row disappears exactly when its path
was requested and the first row of that path was owned by the caller. -/
def remainingLocks (locks : List (String × String)) (a : String) (fs : List String) :
    List (String × String) :=
  locks.filter fun fl => !(decide (fl.1 ∈ fs) && decide (lockOfL locks fl.1 = some a))

/-! ### Concrete example databases (used by counterexamples and witnesses) -/

/-- One project, one task, one pending unassigned todo. -/
def exDB1 : DB :=
  ⟨[⟨1, "P", .pending⟩], [⟨1, 1, 0, .pending⟩], [⟨1, 1, 0, .pending, none⟩], [], [], [], []⟩

/-- Task 2 depends on the (incomplete) task 1; todo 10 lives in task 2. -/
def exDB2 : DB :=
  ⟨[⟨1, "P", .pending⟩], [⟨1, 1, 0, .pending⟩, ⟨2, 1, 1, .pending⟩],
    [⟨10, 2, 0, .pending, none⟩], [(2, 1)], [], [], []⟩

/-- A todo currently `in_progress` and assigned to agent `a2`. -/
def exDB6 : DB :=
  ⟨[⟨1, "P", .pending⟩], [⟨1, 1, 0, .pending⟩], [⟨1, 1, 0, .inProgress, some "a2"⟩],
    [], [], [], []⟩

/-- A `completed` todo (its agent was cleared on completion). -/
def exDB8 : DB :=
  ⟨[⟨1, "P", .pending⟩], [⟨1, 1, 0, .pending⟩], [⟨1, 1, 0, .completed, none⟩],
    [], [], [], []⟩

/-- A pending todo whose only file is locked, plus an unrelated lock:
used for `update_todo_status` lock-frame checks. -/
def exDB9 : DB :=
  ⟨[⟨1, "P", .pending⟩], [⟨1, 1, 0, .pending⟩], [⟨1, 1, 0, .inProgress, some "a1"⟩],
    [], [], [(1, "f")], [("f", "a1"), ("g", "a2")]⟩

/-- A project whose single task has no todo items at all. -/
def exDB10 : DB :=
  ⟨[⟨1, "P", .pending⟩], [⟨1, 1, 0, .pending⟩], [], [], [], [], []⟩

/-- Locks held by two agents, for lock/unlock scenarios. -/
def exDB4 : DB :=
  ⟨[], [], [], [], [], [], [("x", "a2")]⟩

/-- Lock table for an unlock scenario: `x` held by the caller, `y` by
another agent, `z` unlocked. -/
def exDB7 : DB :=
  ⟨[], [], [], [], [], [], [("x", "a1"), ("y", "a2")]⟩

/-- `src/server.py` database: the single todo's only file is locked by
the requesting agent itself. -/
def exSDB5 : Server.SDB :=
  ⟨[⟨1, "P", .pending⟩], [⟨1, 1, 0, .pending, []⟩], [⟨1, 1, 0, .pending, []⟩],
    [⟨"f", true, some "a1"⟩], [(1, "f")]⟩

/-- `src/server.py` database where a task dependency is incomplete: task 2
depends on pending task 1, todo 10 belongs to task 2. -/
def exSDB2 : Server.SDB :=
  ⟨[⟨1, "P", .pending⟩], [⟨1, 1, 0, .pending, []⟩, ⟨2, 1, 1, .pending, [1]⟩],
    [⟨10, 2, 0, .pending, []⟩], [], []⟩

/-- `src/server.py` database with one claimable todo and no locks. -/
def exSDB0 : Server.SDB :=
  ⟨[⟨1, "P", .pending⟩], [⟨1, 1, 0, .pending, []⟩], [⟨1, 1, 0, .pending, []⟩], [], []⟩

/-- The rejection test of the `unlock_files` loop: the first lock row of
`p` (if any) is owned by an agent other than the caller. -/
def otherOwned (locks : List (String × String)) (a p : String) : Bool :=
  (lockOfL locks p).any fun b => decide (b ≠ a)

/-! ### Helper lemmas -/

/-- The fold implementing `ORDER BY ... LIMIT 1` returns one of the
candidate rows. -/
theorem chooseMin_mem (key : TodoItem → Int × Int) (t : TodoItem) (ts : List TodoItem) :
    ts.foldl (fun best x => if keyLt (key x) (key best) then x else best) t ∈ t :: ts := by
  induction ts generalizing t with
  | nil => simp
  | cons y ys ih =>
    simp only [List.foldl_cons]
    by_cases h : keyLt (key y) (key t)
    · simp only [if_pos h]
      exact List.mem_cons_of_mem _ (ih y)
    · simp only [if_neg h]
      rcases List.mem_cons.mp (ih t) with h1 | h1
      · rw [h1]
        exact List.mem_cons_self _ _
      · exact List.mem_cons_of_mem _ (List.mem_cons_of_mem _ h1)

/-- `selectFirst` only returns rows of the candidate list. -/
theorem selectFirst_mem {key : TodoItem → Int × Int} {l : List TodoItem} {t : TodoItem}
    (h : selectFirst key l = some t) : t ∈ l := by
  cases l with
  | nil => simp [selectFirst] at h
  | cons x xs =>
    simp only [selectFirst, Option.some.injEq] at h
    exact h ▸ chooseMin_mem key x xs

/-- The rows targeted by `setTodoStatus` end up carrying exactly the
written status and agent. -/
theorem allWithIdSet_setTodoStatus (todos : List TodoItem) (i : Nat) (st : Status)
    (a : Option String) : allWithIdSet (setTodoStatus todos i st a) i st a = true := by
  simp only [allWithIdSet, List.all_eq_true, setTodoStatus, List.mem_map]
  rintro x ⟨y, hy, rfl⟩
  by_cases h : y.id = i <;> simp [h]

/-- `setTodoStatus` keeps the status/agent coupling whenever the written
pair itself satisfies it. -/
theorem coupled_setTodoStatus (todos : List TodoItem) (i : Nat) (st : Status)
    (a : Option String) (hsa : decide (st = .inProgress) = a.isSome)
    (h : (todos.all fun t => decide (t.status = .inProgress) == t.assignedAgent.isSome) = true) :
    ((setTodoStatus todos i st a).all fun t =>
        decide (t.status = .inProgress) == t.assignedAgent.isSome) = true := by
  simp only [List.all_eq_true, setTodoStatus, List.mem_map] at h ⊢
  rintro x ⟨y, hy, rfl⟩
  by_cases hid : y.id = i
  · simp [hid, hsa]
  · simpa [hid] using h y hy

/-- A row-wise transformation that keeps status and agent keeps the
coupling. -/
theorem coupled_map (todos : List TodoItem) (f : TodoItem → TodoItem)
    (hf : ∀ t, (f t).status = t.status ∧ (f t).assignedAgent = t.assignedAgent)
    (h : (todos.all fun t => decide (t.status = .inProgress) == t.assignedAgent.isSome) = true) :
    ((todos.map f).all fun t =>
        decide (t.status = .inProgress) == t.assignedAgent.isSome) = true := by
  simp only [List.all_eq_true, List.mem_map] at h ⊢
  rintro x ⟨y, hy, rfl⟩
  rw [(hf y).1, (hf y).2]
  exact h y hy


/-- The status/agent pair written by `update_todo_status` satisfies the
coupling by construction. -/
theorem decide_inProgress_isSome (st : Status) (a : String) :
    decide (st = .inProgress) = (if st = .inProgress then some a else none).isSome := by
  by_cases hst : st = .inProgress <;> simp [hst]

/-- `get_next_todo_item` of `src/main.py` never writes. -/
theorem Main.get_next_fst (db : DB) (p a : String) :
    (Main.get_next_todo_item db p a).1 = db := by
  unfold Main.get_next_todo_item
  split
  · rfl
  · split
    · rfl
    · rfl

/-- Every engine operation preserves the status/agent coupling. -/
theorem statusAgentCoupled_step {db db' : DB} (hs : Step db db')
    (h : statusAgentCoupled db = true) : statusAgentCoupled db' = true := by
  cases hs with
  | createProject newId name =>
    unfold Main.create_project
    split
    · exact h
    · exact h
  | createTask projectName newId order deps =>
    unfold Main.create_task
    split
    · exact h
    · exact h
  | createTodoItem taskId newId order deps files =>
    unfold Main.create_todo_item
    split
    · exact h
    · unfold statusAgentCoupled at h ⊢
      simp only [List.all_append, h, Bool.true_and]
      simp
  | insertTodoItem taskId newId afterTodoId deps files =>
    unfold Main.insert_todo_item
    split
    · exact h
    · have hgo : ∀ k : Int,
          (((db.todos.map fun t : TodoItem =>
              if t.taskId = taskId ∧ k ≤ t.orderIndex then
                { t with orderIndex := t.orderIndex + 1 }
              else t) ++ [TodoItem.mk newId taskId k .pending none]).all fun t =>
            decide (t.status = .inProgress) == t.assignedAgent.isSome) = true := by
        intro k
        simp only [List.all_append, Bool.and_eq_true]
        refine ⟨?_, by simp⟩
        refine coupled_map db.todos _ (fun t => ?_) h
        by_cases hc : t.taskId = taskId ∧ k ≤ t.orderIndex <;> simp [hc]
      dsimp only
      split
      · split
        · exact h
        · exact hgo _
      · exact hgo 0
  | mainGetNext projectName agentId =>
    rw [Main.get_next_fst]
    exact h
  | mainUpdateStatus todoId status agentId =>
    unfold Main.update_todo_status
    split
    · exact h
    · split
      · exact h
      · split
        · exact h
        · exact coupled_setTodoStatus db.todos todoId _ _
            (decide_inProgress_isSome _ agentId) h
  | httpGetNext projectName agentId =>
    unfold Http.get_next_todo_item
    split
    · exact h
    · split
      · exact h
      · exact coupled_setTodoStatus db.todos _ .inProgress (some agentId) rfl h
  | httpUpdateStatus todoId status agentId =>
    unfold Http.update_todo_status
    split
    · exact h
    · split
      · exact h
      · split
        · exact h
        · exact coupled_setTodoStatus db.todos todoId _ _
            (decide_inProgress_isSome _ agentId) h
  | fixedGetNext projectName agentId =>
    unfold Fixed.get_next_todo_item
    split
    · exact h
    · split
      · exact h
      · exact coupled_setTodoStatus db.todos _ .inProgress (some agentId) rfl h
  | fixedUpdateStatus todoId status agentId =>
    unfold Fixed.update_todo_status
    split
    · exact h
    · split
      · exact h
      · split
        · exact h
        · exact coupled_setTodoStatus db.todos todoId _ _
            (decide_inProgress_isSome _ agentId) h
  | lockFiles files agentId =>
    unfold Main.lock_files
    dsimp only
    split
    · exact h
    · exact h
  | unlockFiles files agentId =>
    exact h

/-- Unfolding `lockOfL` one row at a time. -/
theorem lockOfL_cons (fl : String × String) (fls : List (String × String)) (q : String) :
    lockOfL (fl :: fls) q = if fl.1 = q then some fl.2 else lockOfL fls q := by
  unfold lockOfL
  by_cases h : fl.1 = q
  · rw [List.find?_cons_of_pos _ (by simp [h]), if_pos h]
    rfl
  · rw [List.find?_cons_of_neg _ (by simp [h]), if_neg h]

/-- Replacing the rows of path `p` does not affect the lookup of another
path. -/
theorem lockOfL_replace_ne (locks : List (String × String)) (p a q : String) (hq : q ≠ p) :
    lockOfL (locks.map fun fl => if fl.1 = p then (p, a) else fl) q = lockOfL locks q := by
  induction locks with
  | nil => rfl
  | cons fl fls ih =>
    by_cases hfl : fl.1 = p
    · simp only [List.map_cons, if_pos hfl]
      rw [lockOfL_cons, lockOfL_cons, if_neg (by simpa using (Ne.symm hq)), if_neg (by
        rw [hfl]; exact Ne.symm hq)]
      exact ih
    · simp only [List.map_cons, if_neg hfl]
      rw [lockOfL_cons, lockOfL_cons]
      by_cases h : fl.1 = q
      · rw [if_pos h, if_pos h]
      · rw [if_neg h, if_neg h]
        exact ih

/-- If some row holds path `p`, replacing makes its lookup `some a`. -/
theorem lockOfL_replace_self (locks : List (String × String)) (p a : String)
    (hpres : (locks.any fun fl => decide (fl.1 = p)) = true) :
    lockOfL (locks.map fun fl => if fl.1 = p then (p, a) else fl) p = some a := by
  induction locks with
  | nil => simp at hpres
  | cons fl fls ih =>
    by_cases hfl : fl.1 = p
    · simp only [List.map_cons, if_pos hfl]
      rw [lockOfL_cons, if_pos rfl]
    · simp only [List.map_cons, if_neg hfl]
      rw [lockOfL_cons, if_neg hfl]
      simp only [List.any_cons, Bool.or_eq_true, decide_eq_true_eq] at hpres
      exact ih (by simpa [hfl] using hpres)

/-- Appending the fresh row `(p, a)` only affects the lookup of `p`, and
only when `p` had no row. -/
theorem lockOfL_append_single (locks : List (String × String)) (p a q : String) :
    lockOfL (locks ++ [(p, a)]) q =
      match lockOfL locks q with
      | some b => some b
      | none => if p = q then some a else none := by
  induction locks with
  | nil =>
    show lockOfL [(p, a)] q = _
    rw [lockOfL_cons]
    rfl
  | cons fl fls ih =>
    rw [List.cons_append, lockOfL_cons, lockOfL_cons]
    by_cases h : fl.1 = q
    · rw [if_pos h, if_pos h]
    · rw [if_neg h, if_neg h, ih]

/-- The lookup after an `INSERT OR REPLACE` of `(p, a)`. -/
theorem lockOfL_insertOrReplace (locks : List (String × String)) (p a q : String) :
    lockOfL (insertOrReplaceLock locks p a) q =
      if q = p then some a else lockOfL locks q := by
  unfold insertOrReplaceLock
  by_cases hpres : (locks.any fun fl => decide (fl.1 = p)) = true
  · rw [if_pos hpres]
    by_cases hq : q = p
    · subst hq
      rw [if_pos rfl]
      exact lockOfL_replace_self locks q a hpres
    · rw [if_neg hq]
      exact lockOfL_replace_ne locks p a q hq
  · rw [if_neg hpres]
    have hnone : lockOfL locks p = none := by
      unfold lockOfL
      rw [List.find?_eq_none.mpr]
      · rfl
      · intro x hx
        simp only [List.any_eq_true] at hpres
        intro hc
        exact hpres ⟨x, hx, hc⟩
    rw [lockOfL_append_single]
    by_cases hq : q = p
    · subst hq
      rw [hnone]
    · rw [if_neg hq]
      cases hv : lockOfL locks q
      · rw [if_neg (fun hc => hq hc.symm)]
      · rfl

/-- The lookup after `lock_files` has inserted a lock row for every
requested path. -/
theorem lockOfL_lockAll (files : List String) (a : String)
    (locks : List (String × String)) (q : String) :
    lockOfL (files.foldl (fun fls p => insertOrReplaceLock fls p a) locks) q =
      if q ∈ files then some a else lockOfL locks q := by
  induction files generalizing locks with
  | nil => simp
  | cons p ps ih =>
    simp only [List.foldl_cons]
    rw [ih]
    by_cases hq : q ∈ ps
    · rw [if_pos hq, if_pos (List.mem_cons_of_mem _ hq)]
    · rw [if_neg hq, lockOfL_insertOrReplace]
      by_cases hqp : q = p
      · rw [if_pos hqp, if_pos (by rw [hqp]; exact List.mem_cons_self _ _)]
      · rw [if_neg hqp, if_neg (by simp [List.mem_cons, hqp, hq])]

/-- `find?` commutes with a filter that keeps every row the search could
return. -/
theorem find?_filter_of_keep {α : Type} (l : List α) (keep q : α → Bool)
    (h : ∀ x, q x = true → keep x = true) :
    (l.filter keep).find? q = l.find? q := by
  induction l with
  | nil => rfl
  | cons x xs ih =>
    by_cases hq : q x = true
    · rw [List.filter_cons, if_pos (h x hq), List.find?_cons_of_pos _ hq,
        List.find?_cons_of_pos _ hq]
    · rw [List.filter_cons]
      by_cases hk : keep x = true
      · rw [if_pos hk, List.find?_cons_of_neg _ (by simp [hq]),
          List.find?_cons_of_neg _ (by simp [hq])]
        exact ih
      · rw [if_neg hk, List.find?_cons_of_neg _ (by simp [hq])]
        exact ih

/-- Lookup inside the survivors of the `unlock_files` loop. -/
theorem find?_remainingLocks (locks : List (String × String)) (a : String)
    (fs : List String) (p : String) :
    (remainingLocks locks a fs).find? (fun fl => decide (fl.1 = p)) =
      if p ∈ fs ∧ lockOfL locks p = some a then none
      else locks.find? (fun fl => decide (fl.1 = p)) := by
  by_cases hc : p ∈ fs ∧ lockOfL locks p = some a
  · rw [if_pos hc]
    apply List.find?_eq_none.mpr
    intro x hx
    simp only [remainingLocks, List.mem_filter] at hx
    intro hpx
    have hxp : x.1 = p := by simpa using hpx
    rw [hxp] at hx
    simp [hc.1, hc.2] at hx
  · rw [if_neg hc]
    apply find?_filter_of_keep
    intro x hpx
    have hxp : x.1 = p := by simpa using hpx
    simp only [hxp]
    by_cases h1 : p ∈ fs
    · have h2 : lockOfL locks p ≠ some a := fun h => hc ⟨h1, h⟩
      simp [h1, h2]
    · simp [h1]

/-- Pointwise form of `remainingLocks`. -/
theorem lockOfL_remainingLocks (locks : List (String × String)) (a : String)
    (fs : List String) (q : String) :
    lockOfL (remainingLocks locks a fs) q =
      if q ∈ fs ∧ lockOfL locks q = some a then none else lockOfL locks q := by
  show ((remainingLocks locks a fs).find? (fun fl => decide (fl.1 = q))).map (·.2) = _
  rw [find?_remainingLocks]
  by_cases hc : q ∈ fs ∧ lockOfL locks q = some a
  · rw [if_pos hc, if_pos hc]
    rfl
  · rw [if_neg hc, if_neg hc]
    rfl

/-- Processing a path the loop does not release leaves the survivors
unchanged. -/
theorem remainingLocks_extend (locks : List (String × String)) (a : String)
    (fs : List String) (p : String)
    (h : ¬(p ∉ fs ∧ lockOfL locks p = some a)) :
    remainingLocks locks a (fs ++ [p]) = remainingLocks locks a fs := by
  unfold remainingLocks
  apply List.filter_congr
  intro x hx
  by_cases hxp : x.1 = p
  · rw [hxp]
    by_cases hpf : p ∈ fs
    · simp [hpf, List.mem_append]
    · have h2 : lockOfL locks p ≠ some a := fun hh => h ⟨hpf, hh⟩
      simp [hpf, h2, List.mem_append]
  · simp [List.mem_append, hxp]

/-- Releasing a path owned by the caller filters exactly its rows out of
the survivors. -/
theorem remainingLocks_extend_remove (locks : List (String × String)) (a : String)
    (fs : List String) (p : String) (h2 : lockOfL locks p = some a) :
    (remainingLocks locks a fs).filter (fun fl => decide (fl.1 ≠ p)) =
      remainingLocks locks a (fs ++ [p]) := by
  unfold remainingLocks
  rw [List.filter_filter]
  apply List.filter_congr
  intro x hx
  by_cases hxp : x.1 = p
  · simp [hxp, h2, List.mem_append]
  · simp [hxp, List.mem_append]

/-- Invariant of the `unlock_files` loop: after processing `fs ++ rest`
starting from the state reached after `fs`, the lock table holds exactly
the surviving rows, the released list contains exactly the requested
paths the caller owned, and the rejected list contains exactly the
requested paths another agent owns. -/
theorem unlock_fold_spec (L : List (String × String)) (a : String) :
    ∀ (rest fs unl rej : List String),
      (∀ q, q ∈ unl ↔ q ∈ fs ∧ lockOfL L q = some a) →
      rej = fs.filter (otherOwned L a) →
      ((rest.foldl (Main.unlockStep a) (remainingLocks L a fs, unl, rej)).1 =
          remainingLocks L a (fs ++ rest) ∧
        (∀ q, q ∈ (rest.foldl (Main.unlockStep a) (remainingLocks L a fs, unl, rej)).2.1 ↔
          q ∈ fs ++ rest ∧ lockOfL L q = some a) ∧
        (rest.foldl (Main.unlockStep a) (remainingLocks L a fs, unl, rej)).2.2 =
          (fs ++ rest).filter (otherOwned L a)) := by
  intro rest
  induction rest with
  | nil =>
    intro fs unl rej hU hR
    rw [List.foldl_nil, List.append_nil]
    exact ⟨rfl, hU, hR⟩
  | cons p rest ih =>
    intro fs unl rej hU hR
    simp only [List.foldl_cons]
    have hkey : fs ++ p :: rest = (fs ++ [p]) ++ rest := by simp
    cases hv : lockOfL L p with
    | none =>
      have hfnone : L.find? (fun fl => decide (fl.1 = p)) = none := by
        unfold lockOfL at hv
        cases hf : L.find? (fun fl => decide (fl.1 = p)) with
        | none => rfl
        | some fl => rw [hf] at hv; simp at hv
      have hfind : (remainingLocks L a fs).find? (fun fl => decide (fl.1 = p)) = none := by
        rw [find?_remainingLocks, if_neg (by simp [hv]), hfnone]
      have hstep : Main.unlockStep a (remainingLocks L a fs, unl, rej) p =
          (remainingLocks L a fs, unl, rej) := by
        unfold Main.unlockStep
        rw [hfind]
      rw [hstep, hkey, ← remainingLocks_extend L a fs p (by simp [hv])]
      apply ih
      · intro q
        rw [hU q]
        constructor
        · rintro ⟨hqf, hqa⟩
          exact ⟨List.mem_append_left _ hqf, hqa⟩
        · rintro ⟨hqf, hqa⟩
          rcases List.mem_append.mp hqf with h1 | h1
          · exact ⟨h1, hqa⟩
          · have hqp : q = p := by simpa using h1
            rw [hqp, hv] at hqa
            exact absurd hqa (by simp)
      · rw [hR, List.filter_append]
        simp [otherOwned, hv]
    | some b =>
      have hfound : ∃ fl, L.find? (fun fl => decide (fl.1 = p)) = some fl ∧ fl.2 = b := by
        unfold lockOfL at hv
        cases hf : L.find? (fun fl => decide (fl.1 = p)) with
        | none => rw [hf] at hv; simp at hv
        | some fl =>
          rw [hf] at hv
          exact ⟨fl, rfl, by simpa using hv⟩
      obtain ⟨fl, hfl, hflb⟩ := hfound
      by_cases hba : b = a
      · rw [hba] at hv hflb
        by_cases hpf : p ∈ fs
        · have hfind : (remainingLocks L a fs).find? (fun fl => decide (fl.1 = p)) = none := by
            rw [find?_remainingLocks, if_pos ⟨hpf, hv⟩]
          have hstep : Main.unlockStep a (remainingLocks L a fs, unl, rej) p =
              (remainingLocks L a fs, unl, rej) := by
            unfold Main.unlockStep
            rw [hfind]
          rw [hstep, hkey, ← remainingLocks_extend L a fs p (fun hcon => hcon.1 hpf)]
          apply ih
          · intro q
            rw [hU q]
            by_cases hqp : q = p
            · subst hqp
              constructor
              · rintro ⟨hqf, hqa⟩
                exact ⟨List.mem_append_left _ hqf, hqa⟩
              · rintro ⟨_, hqa⟩
                exact ⟨hpf, hqa⟩
            · constructor
              · rintro ⟨hqf, hqa⟩
                exact ⟨List.mem_append_left _ hqf, hqa⟩
              · rintro ⟨hqf, hqa⟩
                rcases List.mem_append.mp hqf with h1 | h1
                · exact ⟨h1, hqa⟩
                · exact absurd (by simpa using h1) hqp
          · rw [hR, List.filter_append]
            simp [otherOwned, hv]
        · have hfind : (remainingLocks L a fs).find? (fun fl => decide (fl.1 = p)) = some fl := by
            rw [find?_remainingLocks, if_neg (fun hcon => hpf hcon.1), hfl]
          have hstep : Main.unlockStep a (remainingLocks L a fs, unl, rej) p =
              ((remainingLocks L a fs).filter (fun fl => decide (fl.1 ≠ p)),
                unl ++ [p], rej) := by
            unfold Main.unlockStep
            rw [hfind]
            simp [hflb]
          rw [hstep, hkey, remainingLocks_extend_remove L a fs p hv]
          apply ih
          · intro q
            by_cases hqp : q = p
            · subst hqp
              constructor
              · intro _
                exact ⟨by simp, hv⟩
              · intro _
                simp
            · constructor
              · intro hq
                rcases List.mem_append.mp hq with h1 | h1
                · obtain ⟨hqf, hqa⟩ := (hU q).mp h1
                  exact ⟨List.mem_append_left _ hqf, hqa⟩
                · exact absurd (by simpa using h1) hqp
              · rintro ⟨hqf, hqa⟩
                rcases List.mem_append.mp hqf with h1 | h1
                · exact List.mem_append_left _ ((hU q).mpr ⟨h1, hqa⟩)
                · exact absurd (by simpa using h1) hqp
          · rw [hR, List.filter_append]
            simp [otherOwned, hv]
      · have hfind : (remainingLocks L a fs).find? (fun fl => decide (fl.1 = p)) = some fl := by
          rw [find?_remainingLocks, if_neg (by
            rintro ⟨_, hcon⟩
            rw [hv] at hcon
            exact hba (by simpa using hcon)), hfl]
        have hstep : Main.unlockStep a (remainingLocks L a fs, unl, rej) p =
            (remainingLocks L a fs, unl, rej ++ [p]) := by
          unfold Main.unlockStep
          rw [hfind]
          simp [hflb, hba]
        rw [hstep, hkey, ← remainingLocks_extend L a fs p (by
          rintro ⟨_, hcon⟩
          rw [hv] at hcon
          exact hba (by simpa using hcon))]
        apply ih
        · intro q
          rw [hU q]
          by_cases hqp : q = p
          · subst hqp
            constructor
            · rintro ⟨hqf, hqa⟩
              exact ⟨List.mem_append_left _ hqf, hqa⟩
            · rintro ⟨_, hqa⟩
              rw [hv] at hqa
              exact absurd (by simpa using hqa) hba
          · constructor
            · rintro ⟨hqf, hqa⟩
              exact ⟨List.mem_append_left _ hqf, hqa⟩
            · rintro ⟨hqf, hqa⟩
              rcases List.mem_append.mp hqf with h1 | h1
              · exact ⟨h1, hqa⟩
              · exact absurd (by simpa using h1) hqp
        · rw [hR, List.filter_append]
          simp [otherOwned, hv, hba]

/-- Inversion of a successful `Main.get_next_todo_item`: the database is
untouched and the returned row is one of the rows passing the candidate
query. -/
theorem Main.mainGetNextItemSpec {db : DB} {pn a : String} {db' : DB} {t : TodoItem}
    (h : Main.get_next_todo_item db pn a = (db', .item t)) :
    db' = db ∧ t ∈ db.todos ∧
      ∃ p, findProject db pn = some p ∧ Main.eligible db p.id a t = true := by
  unfold Main.get_next_todo_item at h
  split at h
  · simp at h
  · split at h
    · simp at h
    · rename_i x1 p hp x2 t' hsel
      simp only [Prod.mk.injEq, ClaimResult.item.injEq] at h
      obtain ⟨hdb, ht⟩ := h
      subst ht
      have hmem := selectFirst_mem hsel
      rw [List.mem_filter] at hmem
      exact ⟨hdb.symm, hmem.1, p, hp, hmem.2⟩

/-- Inversion of a successful `Http.get_next_todo_item`: the returned row
passed the candidate query and the write marks exactly its id rows
`in_progress` under the caller. -/
theorem Http.httpGetNextItemSpec {db : DB} {pn a : String} {db' : DB} {t : TodoItem}
    (h : Http.get_next_todo_item db pn a = (db', .item t)) :
    t ∈ db.todos ∧
      (∃ p, findProject db pn = some p ∧ Main.eligible db p.id a t = true) ∧
      db' = { db with todos := setTodoStatus db.todos t.id .inProgress (some a) } := by
  unfold Http.get_next_todo_item at h
  split at h
  · simp at h
  · split at h
    · simp at h
    · rename_i x1 p hp x2 t' hsel
      simp only [Prod.mk.injEq, ClaimResult.item.injEq] at h
      obtain ⟨hdb, ht⟩ := h
      subst ht
      have hmem := selectFirst_mem hsel
      rw [List.mem_filter] at hmem
      exact ⟨hmem.1, ⟨p, hp, hmem.2⟩, hdb.symm⟩

/-- Inversion of a successful `Fixed.get_next_todo_item`. -/
theorem Fixed.fixedGetNextItemSpec {db : DB} {pn a : String} {db' : DB} {t : TodoItem}
    (h : Fixed.get_next_todo_item db pn a = (db', .item t)) :
    t ∈ db.todos ∧
      (∃ p, findProject db pn = some p ∧ Fixed.eligible db p.id t = true) ∧
      db' = { db with todos := setTodoStatus db.todos t.id .inProgress (some a) } := by
  unfold Fixed.get_next_todo_item at h
  split at h
  · simp at h
  · split at h
    · simp at h
    · rename_i x1 p hp x2 t' hsel
      simp only [Prod.mk.injEq, ClaimResult.item.injEq] at h
      obtain ⟨hdb, ht⟩ := h
      subst ht
      have hmem := selectFirst_mem hsel
      rw [List.mem_filter] at hmem
      exact ⟨hmem.1, ⟨p, hp, hmem.2⟩, hdb.symm⟩

/-- Membership through ordered insertion. -/
theorem mem_insertByKey {α : Type} (key : α → Int × Int) (x y : α) (l : List α) :
    y ∈ insertByKey key x l ↔ y = x ∨ y ∈ l := by
  induction l with
  | nil => simp [insertByKey]
  | cons z zs ih =>
    unfold insertByKey
    by_cases h : keyLe (key x) (key z) = true
    · simp only [if_pos h, List.mem_cons]
    · simp only [if_neg h, List.mem_cons, ih]
      tauto

/-- Sorting does not change membership. -/
theorem mem_sortByKey {α : Type} (key : α → Int × Int) (y : α) (l : List α) :
    y ∈ sortByKey key l ↔ y ∈ l := by
  induction l with
  | nil => simp [sortByKey]
  | cons x xs ih =>
    unfold sortByKey
    rw [mem_insertByKey, ih, List.mem_cons]

/-- Inversion of a successful `Server._get_next_todo_item`: the returned
row came from the project join, passed every skip-test, and its joined
task is the `find?`-selected task of its `task_id`. -/
theorem Server.get_next_spec {sdb : Server.SDB} {pn a : String} {t : Server.STodo}
    (h : Server._get_next_todo_item sdb pn a = .item t) :
    ∃ p task, sdb.projects.find? (fun p => decide (p.name = pn)) = some p ∧
      sdb.tasks.find? (fun task =>
        decide (task.id = t.taskId) && decide (task.projectId = p.id)) = some task ∧
      Server.eligibleS sdb p.id (t, task) = true := by
  unfold Server._get_next_todo_item at h
  split at h
  · simp at h
  · split at h
    · simp at h
    · rename_i x1 p hp x2 pr hsel
      simp only [Server.SResult.item.injEq] at h
      have helig := List.find?_some hsel
      have hmem := List.mem_of_find?_eq_some hsel
      rw [Server.orderedTodos, mem_sortByKey, List.mem_filterMap] at hmem
      obtain ⟨ti, hti, hmap⟩ := hmem
      rw [Option.map_eq_some'] at hmap
      obtain ⟨task, hfind, heq⟩ := hmap
      have hpr1 : pr.1 = ti := by rw [← heq]
      have hpr2 : pr.2 = task := by rw [← heq]
      refine ⟨p, task, hp, ?_, ?_⟩
      · rw [← h, hpr1]
        exact hfind
      · rw [← h, ← hpr2, Prod.mk.eta]
        exact helig

/-! ### Claims -/

/-- C1 (amended): in the claiming variants (`http_server.py`,
`mcp_server_fixed.py`) a successful `get_next_todo_item` selects a row
that was `pending` and unassigned and, in the same call, marks every row
of that id `in_progress` with `assigned_agent` equal to the caller.  In
`src/main.py` the select and the transition are **not** one unit: its
`get_next_todo_item` performs no update at all (see the
counterexample). -/
theorem claim_C1 (db : DB) (pn a : String) (db' : DB) (t : TodoItem) :
    (Http.get_next_todo_item db pn a = (db', .item t) →
        t ∈ db.todos ∧ t.status = .pending ∧ t.assignedAgent = none ∧
        allWithIdSet db'.todos t.id .inProgress (some a) = true) ∧
    (Fixed.get_next_todo_item db pn a = (db', .item t) →
        t ∈ db.todos ∧ t.status = .pending ∧ t.assignedAgent = none ∧
        allWithIdSet db'.todos t.id .inProgress (some a) = true) := by
  constructor
  · intro h
    obtain ⟨hmem, ⟨p, hp, helig⟩, hdb⟩ := Http.httpGetNextItemSpec h
    unfold Main.eligible at helig
    simp only [Bool.and_eq_true, decide_eq_true_eq] at helig
    obtain ⟨⟨⟨⟨hA, hB⟩, hC⟩, hD⟩, hE⟩ := helig
    refine ⟨hmem, hB, hC, ?_⟩
    rw [hdb]
    exact allWithIdSet_setTodoStatus db.todos t.id .inProgress (some a)
  · intro h
    obtain ⟨hmem, ⟨p, hp, helig⟩, hdb⟩ := Fixed.fixedGetNextItemSpec h
    unfold Fixed.eligible at helig
    simp only [Bool.and_eq_true, decide_eq_true_eq] at helig
    obtain ⟨⟨⟨hA, hB⟩, hC⟩, hD⟩ := helig
    refine ⟨hmem, hB, hC, ?_⟩
    rw [hdb]
    exact allWithIdSet_setTodoStatus db.todos t.id .inProgress (some a)

/-- C1 witness: the http-variant claim at a concrete database. -/
theorem claim_C1_witness :
    (⟨1, 1, 0, .pending, none⟩ : TodoItem) ∈ exDB1.todos ∧
    (⟨1, 1, 0, .pending, none⟩ : TodoItem).status = .pending ∧
    (⟨1, 1, 0, .pending, none⟩ : TodoItem).assignedAgent = none ∧
    allWithIdSet (Http.get_next_todo_item exDB1 "P" "a1").1.todos 1 .inProgress
      (some "a1") = true :=
  (claim_C1 exDB1 "P" "a1" (Http.get_next_todo_item exDB1 "P" "a1").1
    ⟨1, 1, 0, .pending, none⟩).1 (by decide)

/-- C1 counterexample: `src/main.py`'s `get_next_todo_item` returns a
TodoItem yet leaves the database untouched — after the call the returned
item is still `pending` with no assigned agent, so the claim-and-
transition-as-one-unit property is false for this cited implementation. -/
theorem claim_C1_counterexample :
    (Main.get_next_todo_item exDB1 "P" "a1").2 = .item ⟨1, 1, 0, .pending, none⟩ ∧
    (Main.get_next_todo_item exDB1 "P" "a1").1 = exDB1 ∧
    (findTodo (Main.get_next_todo_item exDB1 "P" "a1").1 1).map (·.status) =
      some .pending ∧
    (findTodo (Main.get_next_todo_item exDB1 "P" "a1").1 1).map (·.assignedAgent) =
      some none := by
  decide

/-- C2 (amended): `src/main.py`'s `get_next_todo_item` returns only
items that are pending, unassigned, and whose todo-item dependencies on
existing rows are all completed — but it never consults
`task_dependencies`, so task-level gating does not hold there (see the
counterexample).  Task-level dependencies do gate in `src/server.py`'s
`_get_next_todo_item`: the task joined to a returned item has every
listed dependency completed. -/
theorem claim_C2 (db : DB) (pn a : String) (db' : DB) (t : TodoItem)
    (sdb : Server.SDB) (t' : Server.STodo) :
    (Main.get_next_todo_item db pn a = (db', .item t) →
        t.status = .pending ∧ t.assignedAgent = none ∧
        Main.hasIncompleteDep db t.id = false) ∧
    (Server._get_next_todo_item sdb pn a = .item t' →
        Server.returnedTaskDepsOk sdb pn t' = true) := by
  constructor
  · intro h
    obtain ⟨hdb, hmem, p, hp, helig⟩ := Main.mainGetNextItemSpec h
    unfold Main.eligible at helig
    simp only [Bool.and_eq_true, decide_eq_true_eq] at helig
    obtain ⟨⟨⟨⟨hA, hB⟩, hC⟩, hD⟩, hE⟩ := helig
    exact ⟨hB, hC, by simpa using hD⟩
  · intro h
    obtain ⟨p, task, hp, hfind, helig⟩ := Server.get_next_spec h
    unfold Server.returnedTaskDepsOk
    rw [hp]
    show ((sdb.tasks.find? fun task =>
        decide (task.id = t'.taskId) && decide (task.projectId = p.id)).all
      fun task => Server.taskDepsOk sdb task.dependencies) = true
    rw [hfind]
    show Server.taskDepsOk sdb task.dependencies = true
    unfold Server.eligibleS at helig
    simp only [Bool.and_eq_true] at helig
    exact helig.1.1.2

/-- C2 witness: the main-variant part at a concrete database with no
dependencies, and the server-variant part at a concrete returned item. -/
theorem claim_C2_witness :
    ((⟨1, 1, 0, .pending, none⟩ : TodoItem).status = .pending ∧
      (⟨1, 1, 0, .pending, none⟩ : TodoItem).assignedAgent = none ∧
      Main.hasIncompleteDep exDB1 1 = false) ∧
    Server.returnedTaskDepsOk exSDB0 "P" ⟨1, 1, 0, .pending, []⟩ = true :=
  ⟨(claim_C2 exDB1 "P" "a1" exDB1 ⟨1, 1, 0, .pending, none⟩ exSDB0
      ⟨1, 1, 0, .pending, []⟩).1 (by decide),
    (claim_C2 exDB1 "P" "a1" exDB1 ⟨1, 1, 0, .pending, none⟩ exSDB0
      ⟨1, 1, 0, .pending, []⟩).2 (by decide)⟩

/-- C2 counterexample: in `src/main.py`, todo 10's parent task 2 depends
on task 1, task 1 is not completed, yet `get_next_todo_item` returns
todo 10 — task-level dependencies do not gate eligibility there. -/
theorem claim_C2_counterexample :
    (Main.get_next_todo_item exDB2 "P" "a1").2 = .item ⟨10, 2, 0, .pending, none⟩ ∧
    (findTodo exDB2 10).map (·.taskId) = some 2 ∧
    (2, 1) ∈ exDB2.taskDeps ∧
    (findTask exDB2 1).map (·.status) = some .pending := by
  decide

/-- C3: in every database reachable from the fresh store through the
engine's operations, a TodoItem's status is `in_progress` exactly when
its `assigned_agent` is non-null; every `update_todo_status` branch
writes a status/agent pair that maintains the coupling. -/
theorem claim_C3 (db : DB) (h : Reachable db) : statusAgentCoupled db = true := by
  induction h with
  | init => decide
  | step _ hs ih => exact statusAgentCoupled_step hs ih

/-- C3 witness: the invariant at the database reached by creating a
project, a task, a todo, and claiming it via `update_todo_status`. -/
theorem claim_C3_witness :
    statusAgentCoupled
      (Main.update_todo_status
        (Main.create_todo_item
          (Main.create_task (Main.create_project DB.empty 1 "P").1 "P" 1 0 []).1
          1 1 0 [] ["f"]).1
        1 "in_progress" "a1").1 = true :=
  claim_C3 _
    (Reachable.step
      (Reachable.step
        (Reachable.step
          (Reachable.step Reachable.init (Step.createProject DB.empty 1 "P"))
          (Step.createTask _ "P" 1 0 []))
        (Step.createTodoItem _ 1 1 0 [] ["f"]))
      (Step.mainUpdateStatus _ 1 "in_progress" "a1"))

/-- On a conflict, `lock_files` returns the error naming the conflicting
paths and leaves the database — in particular every lock record —
untouched. -/
theorem Main.lock_files_conflict_spec (db : DB) (files : List String) (a : String)
    (h : (files.any fun p => Main.lockedByOther db p a) = true) :
    Main.lock_files db files a =
      (db, .conflict (files.filter fun p => Main.lockedByOther db p a)) := by
  unfold Main.lock_files
  dsimp only
  rw [if_pos]
  intro hcon
  rw [List.filter_eq_nil] at hcon
  obtain ⟨x, hx, hpx⟩ := List.any_eq_true.mp h
  exact hcon x hx hpx

/-- With no conflicting path, `lock_files` succeeds and afterwards every
requested path is locked by the caller while every other path's record
is unchanged. -/
theorem Main.lock_files_success_spec (db : DB) (files : List String) (a : String)
    (h : (files.any fun p => Main.lockedByOther db p a) = false) :
    (Main.lock_files db files a).2 = .locked ∧
    ∀ q, lockOf (Main.lock_files db files a).1 q =
      if q ∈ files then some a else lockOf db q := by
  have hnil : (files.filter fun p => Main.lockedByOther db p a) = [] := by
    rw [List.filter_eq_nil]
    intro x hx
    rw [List.any_eq_false] at h
    simp [h x hx]
  constructor
  · unfold Main.lock_files
    dsimp only
    rw [if_neg (by simp [hnil])]
  · intro q
    unfold Main.lock_files
    dsimp only
    rw [if_neg (by simp [hnil])]
    show lockOfL (files.foldl (fun fls p => insertOrReplaceLock fls p a) db.fileLocks) q = _
    rw [lockOfL_lockAll]
    rfl

/-- C4: lock acquisition in `src/main.py` is all-or-nothing.  If any
requested path is locked by another agent the call returns the conflict
error and the database — hence every path's lock state — is unchanged;
otherwise it succeeds, every requested path ends up locked by the
caller, no other path changes, and re-acquiring paths already held by
the caller leaves the lock table's contents (as seen by lookup)
identical. -/
theorem claim_C4 (db : DB) (files : List String) (a : String) :
    ((files.any fun p => Main.lockedByOther db p a) = true →
        Main.lock_files db files a =
          (db, .conflict (files.filter fun p => Main.lockedByOther db p a))) ∧
    ((files.any fun p => Main.lockedByOther db p a) = false →
        (Main.lock_files db files a).2 = .locked ∧
        ∀ q, lockOf (Main.lock_files db files a).1 q =
          if q ∈ files then some a else lockOf db q) ∧
    ((files.any fun p => Main.lockedByOther db p a) = false →
        (∀ p ∈ files, lockOf db p = some a) →
        ∀ q, lockOf (Main.lock_files db files a).1 q = lockOf db q) := by
  refine ⟨Main.lock_files_conflict_spec db files a, Main.lock_files_success_spec db files a, ?_⟩
  intro h hall q
  rw [(Main.lock_files_success_spec db files a h).2 q]
  by_cases hq : q ∈ files
  · rw [if_pos hq, hall q hq]
  · rw [if_neg hq]

/-- C4 witness: a conflicting call against a held path leaves the table
unchanged, and a conflict-free call locks the requested paths. -/
theorem claim_C4_witness :
    (Main.lock_files exDB4 ["x", "y"] "a1" =
      (exDB4, .conflict (["x", "y"].filter fun p => Main.lockedByOther exDB4 p "a1"))) ∧
    (Main.lock_files exDB1 ["u", "v"] "a1").2 = .locked ∧
    lockOf (Main.lock_files exDB1 ["u", "v"] "a1").1 "u" =
      (if "u" ∈ ["u", "v"] then some "a1" else lockOf exDB1 "u") :=
  ⟨(claim_C4 exDB4 ["x", "y"] "a1").1 (by decide),
    ((claim_C4 exDB1 ["u", "v"] "a1").2.1 (by decide)).1,
    ((claim_C4 exDB1 ["u", "v"] "a1").2.1 (by decide)).2 "u"⟩

/-- Per-path form of the lock-clause comparison: all lock rows of a path
either miss it or are owned by the caller, iff no row of the path is
owned by someone else. -/
theorem specLock_head (locks : List (String × String)) (s a : String) :
    (locks.all fun fl => !decide (fl.1 = s) || decide (fl.2 = a)) =
      !(locks.any fun fl => decide (fl.1 = s) && decide (fl.2 ≠ a)) := by
  induction locks with
  | nil => rfl
  | cons fl fls ih =>
    simp only [List.all_cons, List.any_cons, Bool.not_or, ih]
    congr 1
    by_cases hfp : fl.1 = s
    · simp [hfp, decide_not]
    · simp [hfp]

/-- The candidate query's lock clause in `src/main.py` is the negation of
the spec's lock condition (self-locks never block). -/
theorem specLockCondition_eq (db : DB) (i : Nat) (a : String) :
    Main.specLockCondition db i a = !Main.hasBlockingLock db i a := by
  unfold Main.specLockCondition Main.hasBlockingLock
  induction db.todoFiles with
  | nil => rfl
  | cons tf tfs ih =>
    simp only [List.all_cons, List.any_cons, Bool.not_or, ih]
    congr 1
    by_cases hti : tf.1 = i
    · simp only [hti, decide_True, Bool.not_true, Bool.false_or, Bool.true_and]
      exact specLock_head db.fileLocks tf.2 a
    · simp [hti]

/-- C5 (amended): in `src/main.py` the lock clause of the eligibility
query blocks exactly when the spec's lock condition fails — a path
locked by the requester itself never blocks.  In `src/server.py`'s
`_get_next_todo_item`, however, **any** lock on an associated file —
including the requester's own — makes the item ineligible (see the
counterexample). -/
theorem claim_C5 (db : DB) (i : Nat) (a : String) (sdb : Server.SDB) (pid : Nat)
    (pr : Server.STodo × Server.STask) :
    (Main.specLockCondition db i a = !Main.hasBlockingLock db i a) ∧
    (Server.hasLockedFile sdb pr.1.id = true → Server.eligibleS sdb pid pr = false) := by
  constructor
  · exact specLockCondition_eq db i a
  · intro h
    unfold Server.eligibleS
    rw [h]
    simp

/-- C5 witness: the main-variant equivalence at a database whose only
lock is the requester's own, and the server-variant blocking at the
concrete self-locked item. -/
theorem claim_C5_witness :
    (Main.specLockCondition exDB9 1 "a1" = !Main.hasBlockingLock exDB9 1 "a1") ∧
    Server.eligibleS exSDB5 1 (⟨1, 1, 0, .pending, []⟩, ⟨1, 1, 0, .pending, []⟩) = false :=
  ⟨(claim_C5 exDB9 1 "a1" exSDB5 1 (⟨1, 1, 0, .pending, []⟩, ⟨1, 1, 0, .pending, []⟩)).1,
    (claim_C5 exDB9 1 "a1" exSDB5 1 (⟨1, 1, 0, .pending, []⟩, ⟨1, 1, 0, .pending, []⟩)).2
      (by decide)⟩

/-- C5 counterexample: in `src/server.py`, the single todo's only file is
locked by the requesting agent itself — the spec's lock condition is
satisfied for that agent — yet the eligibility loop skips it and
`_get_next_todo_item` reports no available items. -/
theorem claim_C5_counterexample :
    (exSDB5.files.all fun f => !f.locked || decide (f.lockedBy = some "a1")) = true ∧
    Server.hasLockedFile exSDB5 1 = true ∧
    Server._get_next_todo_item exSDB5 "P" "a1" = .noneAvailable := by
  decide

/-- C6 (amended): in `src/main.py` a cross-agent `update_todo_status` to
any status other than `pending` fails with the ownership error and no
side effect, while a transition to `pending` is always permitted (it
clears the agent).  In `src/http_server.py` and
`src/mcp_server_fixed.py` the `pending` exception does not exist: every
cross-agent call — including one targeting `pending` — fails with the
ownership error and no side effect (see the counterexample). -/
theorem claim_C6 (db : DB) (i : Nat) (s a b : String) (st : Status) (row : TodoItem) :
    (findTodo db i = some row → row.assignedAgent = some b → b ≠ "" → b ≠ a →
      parseStatus s = some st → st ≠ .pending →
      Main.update_todo_status db i s a = (db, .ownershipConflict)) ∧
    (findTodo db i = some row →
      (Main.update_todo_status db i "pending" a).2 = .updated .pending none ∧
      allWithIdSet (Main.update_todo_status db i "pending" a).1.todos i .pending
        none = true) ∧
    (findTodo db i = some row → row.assignedAgent = some b → b ≠ "" → b ≠ a →
      parseStatus s = some st →
      Http.update_todo_status db i s a = (db, .ownershipConflict) ∧
      Fixed.update_todo_status db i s a = (db, .ownershipConflict)) := by
  refine ⟨?_, ?_, ?_⟩
  · intro hrow hb hbne hba hps hstp
    unfold Main.update_todo_status
    simp only [hps, hrow]
    rw [hb, if_pos (by simp [agentTruthy, hbne, hba, hstp])]
  · intro hrow
    have hps : parseStatus "pending" = some Status.pending := rfl
    constructor
    · unfold Main.update_todo_status
      simp only [hps, hrow]
      rw [if_neg (by simp)]
      rfl
    · unfold Main.update_todo_status
      simp only [hps, hrow]
      rw [if_neg (by simp)]
      exact allWithIdSet_setTodoStatus db.todos i .pending none
  · intro hrow hb hbne hba hps
    constructor
    · unfold Http.update_todo_status
      simp only [hps, hrow]
      rw [hb, if_pos (by simp [agentTruthy, hbne, hba])]
    · unfold Fixed.update_todo_status
      simp only [hps, hrow]
      rw [hb, if_pos (by simp [agentTruthy, hbne, hba])]

/-- C6 witness: at a todo assigned to `a2`, a cross-agent `completed`
update fails without side effect in `src/main.py`, the `pending` update
succeeds and clears the agent, and the claiming variants reject the
cross-agent `completed` update. -/
theorem claim_C6_witness :
    (Main.update_todo_status exDB6 1 "completed" "a1" = (exDB6, .ownershipConflict)) ∧
    ((Main.update_todo_status exDB6 1 "pending" "a1").2 = .updated .pending none ∧
      allWithIdSet (Main.update_todo_status exDB6 1 "pending" "a1").1.todos 1 .pending
        none = true) ∧
    (Http.update_todo_status exDB6 1 "completed" "a1" = (exDB6, .ownershipConflict) ∧
      Fixed.update_todo_status exDB6 1 "completed" "a1" = (exDB6, .ownershipConflict)) :=
  ⟨(claim_C6 exDB6 1 "completed" "a1" "a2" .completed ⟨1, 1, 0, .inProgress, some "a2"⟩).1
      (by decide) (by decide) (by decide) (by decide) (by decide) (by decide),
    (claim_C6 exDB6 1 "completed" "a1" "a2" .completed ⟨1, 1, 0, .inProgress, some "a2"⟩).2.1
      (by decide),
    (claim_C6 exDB6 1 "completed" "a1" "a2" .completed ⟨1, 1, 0, .inProgress, some "a2"⟩).2.2
      (by decide) (by decide) (by decide) (by decide) (by decide)⟩

/-- C6 counterexample: in `src/http_server.py` a non-owning agent's
transition to `pending` is rejected, contradicting the "always
permitted" exception of the claim. -/
theorem claim_C6_counterexample :
    Http.update_todo_status exDB6 1 "pending" "a1" = (exDB6, .ownershipConflict) := by
  decide

/-- Survivors of the loop before any path is processed. -/
theorem remainingLocks_nil (L : List (String × String)) (a : String) :
    remainingLocks L a [] = L := by
  unfold remainingLocks
  simp

/-- C7: `unlock_files` in `src/main.py` releases exactly the requested
paths the caller holds (their records disappear; every other path's
record is untouched), reports as `not_owned` exactly the requested paths
locked by a different agent, and silently skips paths with no lock
record. -/
theorem claim_C7 (db : DB) (files : List String) (a : String) :
    (∀ q, lockOf (Main.unlock_files db files a).1 q =
        if q ∈ files ∧ lockOf db q = some a then none else lockOf db q) ∧
    (Main.unlock_files db files a).2.notOwned =
      files.filter (otherOwned db.fileLocks a) ∧
    (∀ p, p ∈ (Main.unlock_files db files a).2.unlocked ↔
        p ∈ files ∧ lockOf db p = some a) := by
  have hspec := unlock_fold_spec db.fileLocks a files [] [] []
    (fun q => by simp) rfl
  rw [remainingLocks_nil] at hspec
  refine ⟨?_, ?_, ?_⟩
  · intro q
    show lockOfL (files.foldl (Main.unlockStep a) (db.fileLocks, [], [])).1 q = _
    rw [hspec.1, lockOfL_remainingLocks]
    simp only [List.nil_append]
    rfl
  · show (files.foldl (Main.unlockStep a) (db.fileLocks, [], [])).2.2 = _
    rw [hspec.2.2]
    simp only [List.nil_append]
  · intro p
    show p ∈ (files.foldl (Main.unlockStep a) (db.fileLocks, [], [])).2.1 ↔ _
    simpa using hspec.2.1 p

/-- C7 witness: unlocking `x` (own), `y` (another agent's) and `z`
(unlocked) releases `x`, rejects `y`, and ignores `z`. -/
theorem claim_C7_witness :
    (lockOf (Main.unlock_files exDB7 ["x", "y", "z"] "a1").1 "x" =
      if "x" ∈ ["x", "y", "z"] ∧ lockOf exDB7 "x" = some "a1" then none
      else lockOf exDB7 "x") ∧
    (Main.unlock_files exDB7 ["x", "y", "z"] "a1").2.notOwned =
      ["x", "y", "z"].filter (otherOwned exDB7.fileLocks "a1") ∧
    ("x" ∈ (Main.unlock_files exDB7 ["x", "y", "z"] "a1").2.unlocked ↔
      "x" ∈ ["x", "y", "z"] ∧ lockOf exDB7 "x" = some "a1") :=
  ⟨(claim_C7 exDB7 ["x", "y", "z"] "a1").1 "x",
    (claim_C7 exDB7 ["x", "y", "z"] "a1").2.1,
    (claim_C7 exDB7 ["x", "y", "z"] "a1").2.2 "x"⟩

/-- C8 (amended): `update_todo_status` enforces no terminality.  For a
`completed` or `cancelled` item — whose `assigned_agent` is null — any
valid target status is accepted by both `src/main.py` and
`src/http_server.py`, and the item's rows are rewritten to it; the only
transition guard in the code is the assigned-agent ownership check (see
the counterexample). -/
theorem claim_C8 (db : DB) (i : Nat) (s a : String) (st : Status) (row : TodoItem)
    (hrow : findTodo db i = some row)
    (hterm : row.status = .completed ∨ row.status = .cancelled)
    (hagent : row.assignedAgent = none)
    (hps : parseStatus s = some st) :
    (Main.update_todo_status db i s a).2 =
        .updated st (if st = .inProgress then some a else none) ∧
    allWithIdSet (Main.update_todo_status db i s a).1.todos i st
        (if st = .inProgress then some a else none) = true ∧
    (Http.update_todo_status db i s a).2 =
        .updated st (if st = .inProgress then some a else none) ∧
    allWithIdSet (Http.update_todo_status db i s a).1.todos i st
        (if st = .inProgress then some a else none) = true := by
  have hguardM : ¬((agentTruthy row.assignedAgent && decide (row.assignedAgent ≠ some a) &&
      decide (st ≠ .pending)) = true) := by
    simp [hagent, agentTruthy]
  have hguardH : ¬((agentTruthy row.assignedAgent &&
      decide (row.assignedAgent ≠ some a)) = true) := by
    simp [hagent, agentTruthy]
  refine ⟨?_, ?_, ?_, ?_⟩
  · unfold Main.update_todo_status
    simp only [hps, hrow]
    rw [if_neg hguardM]
  · unfold Main.update_todo_status
    simp only [hps, hrow]
    rw [if_neg hguardM]
    exact allWithIdSet_setTodoStatus db.todos i st _
  · unfold Http.update_todo_status
    simp only [hps, hrow]
    rw [if_neg hguardH]
  · unfold Http.update_todo_status
    simp only [hps, hrow]
    rw [if_neg hguardH]
    exact allWithIdSet_setTodoStatus db.todos i st _

/-- C8 witness: a completed item is reopened to `in_progress` by an
arbitrary agent. -/
theorem claim_C8_witness :
    (Main.update_todo_status exDB8 1 "in_progress" "a9").2 =
        .updated .inProgress
          (if Status.inProgress = .inProgress then some "a9" else none) ∧
    allWithIdSet (Main.update_todo_status exDB8 1 "in_progress" "a9").1.todos 1
        .inProgress (if Status.inProgress = .inProgress then some "a9" else none) = true ∧
    (Http.update_todo_status exDB8 1 "in_progress" "a9").2 =
        .updated .inProgress
          (if Status.inProgress = .inProgress then some "a9" else none) ∧
    allWithIdSet (Http.update_todo_status exDB8 1 "in_progress" "a9").1.todos 1
        .inProgress (if Status.inProgress = .inProgress then some "a9" else none) = true :=
  claim_C8 exDB8 1 "in_progress" "a9" .inProgress ⟨1, 1, 0, .completed, none⟩
    (by decide) (Or.inl rfl) rfl rfl

/-- C8 counterexample: the `completed` item of `exDB8` is moved back to
`in_progress` by `update_todo_status` — `completed` is not terminal in
the code. -/
theorem claim_C8_counterexample :
    (findTodo exDB8 1).map (·.status) = some .completed ∧
    (Main.update_todo_status exDB8 1 "in_progress" "a9").2 =
      .updated .inProgress (some "a9") ∧
    (findTodo (Main.update_todo_status exDB8 1 "in_progress" "a9").1 1).map (·.status) =
      some .inProgress := by
  decide

/-- C9: in `src/main.py`, `update_todo_status` to `pending` clears the
agent and leaves every `file_locks` row unchanged, while the
`completed`/`cancelled` branch inserts no lock row and removes only rows
whose `locked_by` equals the requesting agent. -/
theorem claim_C9 (db : DB) (i : Nat) (a : String) (row : TodoItem)
    (hrow : findTodo db i = some row) :
    ((Main.update_todo_status db i "pending" a).2 = .updated .pending none ∧
      (Main.update_todo_status db i "pending" a).1.fileLocks = db.fileLocks ∧
      allWithIdSet (Main.update_todo_status db i "pending" a).1.todos i .pending
        none = true) ∧
    (∀ s, s = "completed" ∨ s = "cancelled" →
      ((Main.update_todo_status db i s a).1.fileLocks.all fun fl =>
          decide (fl ∈ db.fileLocks)) = true ∧
      (db.fileLocks.all fun fl =>
          decide (fl.2 = a) ||
            decide (fl ∈ (Main.update_todo_status db i s a).1.fileLocks)) = true) := by
  constructor
  · have hps : parseStatus "pending" = some Status.pending := rfl
    refine ⟨?_, ?_, ?_⟩
    · unfold Main.update_todo_status
      simp only [hps, hrow]
      rw [if_neg (by simp)]
      rfl
    · unfold Main.update_todo_status
      simp only [hps, hrow]
      rw [if_neg (by simp)]
      rfl
    · unfold Main.update_todo_status
      simp only [hps, hrow]
      rw [if_neg (by simp)]
      exact allWithIdSet_setTodoStatus db.todos i .pending none
  · intro s hs
    rcases hs with rfl | rfl
    · have hps : parseStatus "completed" = some Status.completed := rfl
      unfold Main.update_todo_status
      simp only [hps, hrow]
      by_cases hg : (agentTruthy row.assignedAgent && decide (row.assignedAgent ≠ some a) &&
          decide (Status.completed ≠ .pending)) = true
      · rw [if_pos hg]
        constructor
        · rw [List.all_eq_true]
          intro fl hfl
          simpa using hfl
        · rw [List.all_eq_true]
          intro fl hfl
          simp [hfl]
      · rw [if_neg hg]
        constructor
        · rw [List.all_eq_true]
          intro fl hfl
          have hfl' : fl ∈ db.fileLocks.filter
              (fun fl => !((filesOf db i).contains fl.1 && decide (fl.2 = a))) := hfl
          rw [decide_eq_true_eq]
          exact (List.mem_filter.mp hfl').1
        · rw [List.all_eq_true]
          intro fl hfl
          by_cases hfa : fl.2 = a
          · simp [hfa]
          · rw [Bool.or_eq_true]
            right
            rw [decide_eq_true_eq]
            exact List.mem_filter.mpr ⟨hfl, by simp [hfa]⟩
    · have hps : parseStatus "cancelled" = some Status.cancelled := rfl
      unfold Main.update_todo_status
      simp only [hps, hrow]
      by_cases hg : (agentTruthy row.assignedAgent && decide (row.assignedAgent ≠ some a) &&
          decide (Status.cancelled ≠ .pending)) = true
      · rw [if_pos hg]
        constructor
        · rw [List.all_eq_true]
          intro fl hfl
          simpa using hfl
        · rw [List.all_eq_true]
          intro fl hfl
          simp [hfl]
      · rw [if_neg hg]
        constructor
        · rw [List.all_eq_true]
          intro fl hfl
          have hfl' : fl ∈ db.fileLocks.filter
              (fun fl => !((filesOf db i).contains fl.1 && decide (fl.2 = a))) := hfl
          rw [decide_eq_true_eq]
          exact (List.mem_filter.mp hfl').1
        · rw [List.all_eq_true]
          intro fl hfl
          by_cases hfa : fl.2 = a
          · simp [hfa]
          · rw [Bool.or_eq_true]
            right
            rw [decide_eq_true_eq]
            exact List.mem_filter.mpr ⟨hfl, by simp [hfa]⟩

/-- C9 witness: reopening the in-progress item of `exDB9` to `pending`
keeps both lock rows, and completing it touches no row owned by another
agent. -/
theorem claim_C9_witness :
    ((Main.update_todo_status exDB9 1 "pending" "a1").2 = .updated .pending none ∧
      (Main.update_todo_status exDB9 1 "pending" "a1").1.fileLocks = exDB9.fileLocks ∧
      allWithIdSet (Main.update_todo_status exDB9 1 "pending" "a1").1.todos 1 .pending
        none = true) ∧
    (((Main.update_todo_status exDB9 1 "completed" "a1").1.fileLocks.all fun fl =>
        decide (fl ∈ exDB9.fileLocks)) = true ∧
      (exDB9.fileLocks.all fun fl =>
          decide (fl.2 = "a1") ||
            decide (fl ∈ (Main.update_todo_status exDB9 1 "completed" "a1").1.fileLocks)) =
        true) :=
  ⟨(claim_C9 exDB9 1 "a1" ⟨1, 1, 0, .inProgress, some "a1"⟩ (by decide)).1,
    (claim_C9 exDB9 1 "a1" ⟨1, 1, 0, .inProgress, some "a1"⟩ (by decide)).2
      "completed" (Or.inl rfl)⟩

/-- The guarded percentage at zero todos: `max(0, 1)` divides, giving
exactly `0`. -/
theorem completionPct_zero : completionPct 0 0 = 0 := by
  unfold completionPct round1
  norm_num

/-- C10: `get_project_status` in `src/main.py` is total on every existing
project: it always produces a result, and whenever a todo count is zero
— overall or for an individual task — the `max(total, 1)` divisor makes
the completion percentage exactly `0` instead of a division error. -/
theorem claim_C10 (db : DB) (name : String) (h : (findProject db name).isSome = true) :
    (Main.get_project_status db name).isSome = true ∧
    ((Main.get_project_status db name).all fun r =>
        (decide (r.totalTodos ≠ 0) || decide (r.completionPercentage = 0)) &&
          r.taskStats.all fun ts =>
            decide (ts.totalTodos ≠ 0) || decide (ts.completionPercentage = 0)) = true := by
  rw [Option.isSome_iff_exists] at h
  obtain ⟨p, hp⟩ := h
  constructor
  · unfold Main.get_project_status
    simp only [hp]
    rfl
  · unfold Main.get_project_status
    simp only [hp]
    rw [Option.all_some, Bool.and_eq_true]
    constructor
    · by_cases h0 : (db.todos.filter fun ti =>
          db.tasks.any fun t => decide (t.id = ti.taskId) && decide (t.projectId = p.id)).length = 0
      · rw [Bool.or_eq_true]
        right
        rw [decide_eq_true_eq]
        show completionPct
          ((db.todos.filter fun ti =>
              db.tasks.any fun t => decide (t.id = ti.taskId) && decide (t.projectId = p.id)).filter
            fun ti => decide (ti.status = .completed)).length
          (db.todos.filter fun ti =>
              db.tasks.any fun t => decide (t.id = ti.taskId) && decide (t.projectId = p.id)).length = 0
        rw [List.length_eq_zero] at h0
        rw [h0]
        exact completionPct_zero
      · rw [Bool.or_eq_true]
        left
        rw [decide_eq_true_eq]
        exact h0
    · rw [List.all_eq_true]
      intro ts hts
      rw [List.mem_map] at hts
      obtain ⟨task, htask, rfl⟩ := hts
      by_cases h0 : (db.todos.filter fun ti => decide (ti.taskId = task.id)).length = 0
      · rw [Bool.or_eq_true]
        right
        rw [decide_eq_true_eq]
        show completionPct
          ((db.todos.filter fun ti => decide (ti.taskId = task.id)).filter
            fun ti => decide (ti.status = .completed)).length
          (db.todos.filter fun ti => decide (ti.taskId = task.id)).length = 0
        rw [List.length_eq_zero] at h0
        rw [h0]
        exact completionPct_zero
      · rw [Bool.or_eq_true]
        left
        rw [decide_eq_true_eq]
        exact h0

/-- C10 witness: a project whose only task has no todo items gets a
result with completion percentage `0` everywhere. -/
theorem claim_C10_witness :
    (Main.get_project_status exDB10 "P").isSome = true ∧
    ((Main.get_project_status exDB10 "P").all fun r =>
        (decide (r.totalTodos ≠ 0) || decide (r.completionPercentage = 0)) &&
          r.taskStats.all fun ts =>
            decide (ts.totalTodos ≠ 0) || decide (ts.completionPercentage = 0)) = true :=
  claim_C10 exDB10 "P" (by decide)
